import Mathlib

/-
  Verification development for the cheesedex directory browser.

  Shallow embedding of:
  - the cycle-safe walker `walk.WalkDir` / `walkDir` / `willwalk`
    (internal/walk package),
  - the search callback built in `Server.handleSearch` (cheesedex.go),
  - the archive encoders `archiveZIP` / `archiveTarGZ` (cheesedex.go),
  - the README selection loop of `IndexContext.Populate` (cheesedex.go).

  Filesystems are modelled as finite trees of nodes (regular file with
  content, directory with an ordered child list and a readability flag,
  symlink with a raw target).  Paths are lists of components, rooted at
  the model filesystem's root.  Directory children are stored in the
  order `os.ReadDir` would deliver them (sorted by name); the concrete
  example trees below are written already sorted.

  Kernel-level path resolution (what `os.Stat`, `os.ReadDir`,
  `os.Readlink` perform) is embedded as a fuelled resolver: the fuel
  plays the role of the kernel's bounded symlink-following budget
  (Linux MAXSYMLINKS); the model charges one unit per processed
  component rather than one per followed link, which is coarser than
  the kernel's counting but irrelevant to every claim below (none
  depends on the exact loop threshold, only on the budget being
  finite and positive).

  The walker itself is embedded with an explicit fuel parameter so that
  it is a total, executable function; the fuel is a modelling artefact
  and is always instantiated large enough that the modelled run is the
  run the Go code performs.
-/

deriving instance DecidableEq for Except

namespace Cheesedex

/-- A filesystem path, as a list of components (no separators, no dots
unless they literally appear as components of a raw symlink target). -/
abbrev Path := List String

/-- Filesystem error kinds distinguished by the modelled syscalls.
`perm` models `os.ErrPermission`, `noent` missing entries / ENOTDIR,
`eloop` exhaustion of the symlink-following budget, `inval` the
remaining error situations (e.g. readlink of a non-link). -/
inductive WErr where
  | perm
  | noent
  | eloop
  | inval
deriving DecidableEq, Repr

/-- The slice of `fs.FileInfo` the embedded code inspects. -/
structure Info where
  isDir : Bool
deriving DecidableEq, Repr

/-- The result of `DirEntry.Type()` / `DirEntry.IsDir()`: the raw
(lstat) classification of an entry. -/
inductive Dt where
  | file
  | dir
  | symlink
deriving DecidableEq, Repr

/-- A filesystem node: regular file with contents, directory with a
readability flag (false models a directory whose enumeration fails with
a permission error) and its children in `os.ReadDir` order, or a
symlink storing `path.IsAbs(target)` and the raw target components. -/
inductive FNode where
  | file (content : String)
  | dir (readable : Bool) (children : List (String × FNode))
  | symlink (isAbs : Bool) (target : List String)

/-- Raw classification of a node, as `DirEntry.Type()` would report it. -/
def dtOf : FNode → Dt
  | .file _ => .file
  | .dir _ _ => .dir
  | .symlink _ _ => .symlink

/-- Find a child by name in a directory's child list. -/
def findChild (s : String) : List (String × FNode) → Option FNode
  | [] => none
  | (n, c) :: rest => if n = s then some c else findChild s rest

/-- Follow a symlink-free path from a node: descends only through
directories, never resolves symlinks (the final node may be one). -/
def lookupRaw : FNode → Path → Option FNode
  | n, [] => some n
  | .dir _ cs, s :: rest =>
    match findChild s cs with
    | some c => lookupRaw c rest
    | none => none
  | _, _ :: _ => none

/-- Lexical path cleaning, as `path.Clean` performs on an absolute
path after `path.Join` concatenates: drops `.` components and lets
`..` pop the previous component (staying at the root when empty). -/
def cleanComps (l : List String) : Path :=
  l.foldl (fun acc c =>
    if c = "." then acc
    else if c = ".." then acc.dropLast
    else acc ++ [c]) []

/-- Kernel path resolution from the filesystem root: walks the
components, expanding every symlink encountered (intermediate and
final), within a step budget.  Returns the canonical (symlink-free)
path on success. -/
def resolveFS (fs : FNode) : Nat → Path → List String → Except WErr Path
  | _, acc, [] => .ok acc
  | 0, _, _ :: _ => .error .eloop
  | fuel + 1, acc, c :: rest =>
    if c = "." then resolveFS fs fuel acc rest
    else if c = ".." then resolveFS fs fuel acc.dropLast rest
    else
      match lookupRaw fs (acc ++ [c]) with
      | some (.symlink isAbs tgt) =>
        resolveFS fs fuel (if isAbs then [] else acc) (tgt ++ rest)
      | some _ => resolveFS fs fuel (acc ++ [c]) rest
      | none => .error .noent

/-- The resolver's step budget, standing in for the kernel's bounded
symlink-following (Linux MAXSYMLINKS = 40). -/
def linkBudget : Nat := 40

/-- `os.Stat`: full resolution (follows a final symlink), then
classification of the resolved node. -/
def statFS (fs : FNode) (p : Path) : Except WErr Info :=
  match resolveFS fs linkBudget [] p with
  | .error e => .error e
  | .ok cp =>
    match lookupRaw fs cp with
    | some (.dir _ _) => .ok ⟨true⟩
    | some _ => .ok ⟨false⟩
    | none => .error .noent

/-- `os.Readlink`: resolves the parent, then requires the final
component to be a symlink and returns its raw target. -/
def readlinkFS (fs : FNode) (p : Path) : Except WErr (Bool × List String) :=
  match resolveFS fs linkBudget [] p.dropLast with
  | .error e => .error e
  | .ok parent =>
    match p.getLast? with
    | none => .error .inval
    | some last =>
      match lookupRaw fs (parent ++ [last]) with
      | some (.symlink isAbs tgt) => .ok (isAbs, tgt)
      | some _ => .error .inval
      | none => .error .noent

/-- `os.ReadDir`: full resolution, then enumeration of the resolved
directory's children (name and raw type), failing with a permission
error when the directory is not readable. -/
def readDirFS (fs : FNode) (p : Path) : Except WErr (List (String × Dt)) :=
  match resolveFS fs linkBudget [] p with
  | .error e => .error e
  | .ok cp =>
    match lookupRaw fs cp with
    | some (.dir readable cs) =>
      if readable then .ok (cs.map fun nc => (nc.1, dtOf nc.2))
      else .error .perm
    | some _ => .error .inval
    | none => .error .noent

/-! ## The cycle-safe walker (internal/walk, src/unnamed/part_003) -/

/-- The error values a `WalkDirFunc` (and `walkDir` itself) returns:
`nil` is `none`, `fs.SkipDir` is `some .skipDir`, any other error is
`some (.werr e)`. -/
inductive GoErr where
  | skipDir
  | werr (e : WErr)
deriving DecidableEq, Repr

/-- One invocation's observable behaviour of a `WalkDirFunc`: the error
value it returns and whether it invoked the lazy `getinfo` accessor
(which is what memoizes `stat` inside `walkDir`). -/
structure FnRes where
  ret : Option GoErr
  callsGetinfo : Bool
deriving DecidableEq, Repr

/-- A modelled `WalkDirFunc`.  It receives the path, the value the lazy
stat accessor would produce if invoked (`os.Stat(path)`; pure in the
model, so passing it eagerly is observationally identical), and the
error argument.  Besides its `FnRes` it yields the list of values it
sends on the results channel (empty for callbacks that send nothing).
On the root-stat-failure invocation the real accessor is a nil function
pointer; the modelled callbacks never invoke `getinfo` on an
error-carrying invocation that they do not survive, so passing the stat
value there is harmless. -/
abbrev CbFn := Path → Except WErr Info → Option WErr → FnRes × List Path

/-- How a modelled walk ends: a returned Go error value (`.term none`
is a nil return), a panic (nil-interface method call), or exhaustion of
the modelling fuel. -/
inductive Outcome where
  | term (e : Option GoErr)
  | panicked
  | fuelOut
deriving DecidableEq, Repr

/-- Result of a modelled (sub)walk: the `fn` invocations in order
(path and error argument), the values sent on the results channel in
order, the visited set after the subwalk, and how it ended. -/
structure WalkRes where
  visits : List (Path × Option WErr)
  emits : List Path
  visited : List Path
  out : Outcome
deriving DecidableEq, Repr

/-- `willwalk` (part_003 lines 25-51): decides whether `walkDir`
descends, and reports the `realname` the closure leaves behind (the
key inserted into the visited set when descending).  For a directory:
descend iff its own path is not yet visited.  For a symlink: read the
link, compute `realname` as the source does — `path.Join(name, link)`
for a relative target, i.e. joined onto the link's own path — then
refuse if `realname` is visited, else descend iff `os.Stat(realname)`
succeeds and reports a directory.  Everything else is a leaf. -/
def willwalk (fs : FNode) (visited : List Path) (name : Path) (d : Dt) :
    Bool × Path :=
  match d with
  | .dir => (!(visited.contains name), name)
  | .symlink =>
    match readlinkFS fs name with
    | .error _ => (false, name)
    | .ok (isAbs, link) =>
      let realname := if isAbs then cleanComps link else cleanComps (name ++ link)
      if visited.contains realname then (false, realname)
      else
        match statFS fs realname with
        | .error _ => (false, realname)
        | .ok finfo => (finfo.isDir, realname)
  | .file => (false, name)

/-- The two recursion shapes of `walkDir`: one frame for an entry
(part_003 lines 22-86), and the sibling loop over a directory's
entries (lines 76-84). -/
inductive WTask where
  | node (name : Path) (d : Dt)
  | sibs (parent : Path) (entries : List (String × Dt))

/-- `d.Info()` as passed on the enumeration-failure re-invocation
(part_003 line 70): the entry's own (lstat) info. -/
def dInfoOf (d : Dt) : Info := ⟨d = Dt.dir⟩

/-- `walkDir` (part_003 lines 22-86), fuelled.  A `.node` frame:
invoke `fn` with a nil error; memoize `stat` iff the callback invoked
`getinfo`; if the callback returned non-nil or `willwalk` refuses,
reproduce lines 60-65 — in particular `stat.IsDir()` is evaluated on
the memoized stat whenever the returned error is `fs.SkipDir`, which
panics when the accessor was never (successfully) invoked.  Otherwise
insert `realname` into the visited set, enumerate the directory
(reporting an enumeration failure through a second `fn` invocation,
lines 68-74), and run the sibling loop, where a `fs.SkipDir` return
breaks the loop and any other error aborts (lines 76-84).  (Go
evaluates `willwalk()` only when `fn` returned nil; the model computes
the pure pair eagerly, which is observationally identical because its
`realname` component is only consulted in the descend branch.) -/
def walkDir (fs : FNode) (fn : CbFn) :
    Nat → WTask → List Path → WalkRes
  | 0, _, vis => ⟨[], [], vis, .fuelOut⟩
  | _ + 1, .sibs _ [], vis => ⟨[], [], vis, .term none⟩
  | fuel + 1, .sibs parent ((nm, dt) :: rest), vis =>
    let res := walkDir fs fn fuel (.node (parent ++ [nm]) dt) vis
    match res.out with
    | .term none =>
      let res2 := walkDir fs fn fuel (.sibs parent rest) res.visited
      ⟨res.visits ++ res2.visits, res.emits ++ res2.emits,
        res2.visited, res2.out⟩
    | .term (some .skipDir) => ⟨res.visits, res.emits, res.visited, .term none⟩
    | _ => res
  | fuel + 1, .node name d, vis =>
    let gi := statFS fs name
    let r := fn name gi none
    let statMemo : Option Info := if r.1.callsGetinfo then gi.toOption else none
    let ww := willwalk fs vis name d
    if r.1.ret = none ∧ ww.1 then
      let vis1 := ww.2 :: vis
      match readDirFS fs name with
      | .error e =>
        let r2 := fn name (.ok (dInfoOf d)) (some e)
        ⟨[(name, none), (name, some e)], r.2 ++ r2.2, vis1, .term r2.1.ret⟩
      | .ok entries =>
        let res := walkDir fs fn fuel (.sibs name entries) vis1
        ⟨(name, none) :: res.visits, r.2 ++ res.emits, res.visited, res.out⟩
    else
      if r.1.ret = some .skipDir then
        match statMemo with
        | none => ⟨[(name, none)], r.2, vis, .panicked⟩
        | some finfo =>
          ⟨[(name, none)], r.2, vis,
            .term (if finfo.isDir then none else some .skipDir)⟩
      else ⟨[(name, none)], r.2, vis, .term r.1.ret⟩

/-- `walk.WalkDir` (part_003 lines 11-20): stat the root; on failure
invoke `fn` once with the error and return its result; on success run
`walkDir` on the root with a fresh visited set.  The root's `DirEntry`
is a `statDirEntry` wrapping the (followed) stat, so its raw type is
directory or file, never symlink. -/
def WalkDir (fs : FNode) (fn : CbFn) (fuel : Nat) (root : Path) : WalkRes :=
  match statFS fs root with
  | .error e =>
    let r := fn root (.error e) (some e)
    ⟨[(root, some e)], r.2, [], .term r.1.ret⟩
  | .ok finfo =>
    walkDir fs fn fuel (.node root (if finfo.isDir then .dir else .file)) []

/-- A callback that returns nil everywhere, never invokes `getinfo`
and sends nothing: drives pure traversal experiments. -/
def trivFn : CbFn := fun _ _ _ => (⟨none, false⟩, [])

/-! ## The search pipeline (`Server.handleSearch`, cheesedex.go 101-183) -/

/-- `strings.ToLower`, on the model's strings (character-wise
`Char.toLower`; Go lowercases Unicode-wide, the model covers the ASCII
range, which is all the embedded comparisons exercise). -/
def toLowerStr (s : String) : String := ⟨s.data.map Char.toLower⟩

/-- `strings.Contains`, on the model's strings (Go compares bytes, the
model compares characters; identical on the ASCII data involved). -/
def strContains (s sub : String) : Bool :=
  go sub.toList s.toList
where
  go (needle : List Char) : List Char → Bool
    | [] => needle.isEmpty
    | c :: rest => needle.isPrefixOf (c :: rest) || go needle rest

/-- `filepath.Rel(basepath, fpath)` for the paths a walk rooted at
`basepath` produces: the suffix of `fpath` after the `basepath`
prefix (`some []` is `"."`).  `none` models the non-prefix situation,
where the source callback panics with "impossible"; no walk rooted at
`basepath` reaches it. -/
def relPath (bp p : Path) : Option Path :=
  if bp.isPrefixOf p then some (p.drop bp.length) else none

/-- The string form of a model path, as the Go code sees it (the
served directory is modelled as an absolute path, so the joined
`fpath` strings are absolute, slash-separated). -/
def pathStr (p : Path) : String :=
  "/" ++ String.intercalate "/" p

/-- The search callback `fn` built in `handleSearch` (cheesedex.go
lines 125-158).  A compiled regular expression is modelled as an
opaque-to-the-walker predicate `String → Bool` (`MatchString`: does
the expression match somewhere in the string).  Mirrors the source:
tolerate a nil or permission error argument, abort on any other;
compute the path relative to `basepath` and skip `"."`; in regex mode
match the compiled expression against `fpath` — the full joined path,
not the relative name — otherwise lowercase-containment of the query
in the base name of the relative path; on a match force the lazy stat
(aborting on its failure) and send the entry. -/
def searchFn (exp : Option (String → Bool)) (lowerq : String) (bp : Path) :
    CbFn := fun p gi e =>
  if e = none ∨ e = some WErr.perm then
    match relPath bp p with
    | none => (⟨some (.werr .inval), false⟩, [])
    | some [] => (⟨none, false⟩, [])
    | some rel =>
      let matched :=
        match exp with
        | some r => r (pathStr p)
        | none => strContains (toLowerStr (rel.getLastD "")) lowerq
      if matched then
        match gi with
        | .error e2 => (⟨some (.werr e2), true⟩, [])
        | .ok _ => (⟨none, true⟩, [rel])
      else (⟨none, false⟩, [])
  else
    match e with
    | some e2 => (⟨some (.werr e2), false⟩, [])
    | none => (⟨none, false⟩, [])

/-- Observable outcome of `handleSearch`: an input-error response
written before any traversal, or the streamed sequence of matches
(each match named by its traversal-relative path, in channel order). -/
inductive SearchResp where
  | badRequest
  | page (results : List Path)
deriving DecidableEq, Repr

/-- `Server.handleSearch` (cheesedex.go lines 109-183).  `compile`
models `regexp.Compile` (`none` = compile error).  In regex mode a
compile failure is answered with HTTP 400 before the results channel,
the walking goroutine, the banner read or the template exist;
otherwise the walk rooted at `basepath` runs with the search callback
and the page streams the matches in production order.  (The HTML
template, banner file and goroutine scheduling are external
collaborators; the zero-capacity channel makes the streamed sequence
exactly the emission order.) -/
def handleSearch (fs : FNode) (compile : String → Option (String → Bool))
    (basepath : Path) (query : String) (isregexp : Bool) (fuel : Nat) :
    SearchResp :=
  if isregexp then
    match compile query with
    | none => .badRequest
    | some exp =>
      .page (WalkDir fs (searchFn (some exp) "" basepath) fuel basepath).emits
  else
    .page (WalkDir fs (searchFn none (toLowerStr query) basepath) fuel basepath).emits

/-! ## The directory index builder's README selection
    (`IndexContext.Populate`, cheesedex.go 402-469) -/

/-- The slice of a listed child entry that `Populate`'s sort and README
loop inspect: its name, its effective directory-ness (`FileInfo.mode()`,
i.e. `TargetMode` for symlinks, the plain mode otherwise), and the
bytes `os.ReadFile` would return for it. -/
structure LEntry where
  name : String
  effDir : Bool
  content : String
deriving DecidableEq, Repr

/-- A rendered README, tagged by which variant produced it (the
markdown converter `goldmark` is an external collaborator, modelled as
an opaque `String → String`). -/
inductive Rendered where
  | pre (s : String)
  | verbatim (s : String)
  | markdown (s : String)
deriving DecidableEq, Repr

/-- Go's `<` on strings: lexicographic order (Go compares UTF-8
bytes, the model compares scalar values character-wise; the two orders
agree, UTF-8 being order-preserving). -/
def charListLt : List Char → List Char → Bool
  | [], [] => false
  | [], _ :: _ => true
  | _ :: _, [] => false
  | a :: as, b :: bs =>
    if a.val < b.val then true
    else if b.val < a.val then false
    else charListLt as bs

/-- Go's `<` on strings (see `charListLt`). -/
def strLt (a b : String) : Bool := charListLt a.data b.data

/-- The comparison closure of `sort.Slice` in `Populate` (cheesedex.go
lines 410-419): directories first, then name order. -/
def fileLess (a b : LEntry) : Bool :=
  if a.effDir = b.effDir then strLt a.name b.name else a.effDir

/-- Insertion of one entry into a sorted list under `fileLess`. -/
def insertLE (a : LEntry) : List LEntry → List LEntry
  | [] => [a]
  | b :: bs => if fileLess a b then a :: b :: bs else b :: insertLE a bs

/-- The sort `Populate` applies to the listing.  (`sort.Slice` is
unstable, but `fileLess` is a strict total order whenever names are
distinct — as they are within one directory — so the sorted order is
unique and any sorting algorithm models it.) -/
def sortFiles : List LEntry → List LEntry
  | [] => []
  | a :: as => insertLE a (sortFiles as)

/-- `html.EscapeString` on one character (Go escapes exactly these
five). -/
def escChar (c : Char) : String :=
  if c = '&' then "&amp;"
  else if c = Char.ofNat 39 then "&#39;"
  else if c = '<' then "&lt;"
  else if c = '>' then "&gt;"
  else if c = Char.ofNat 34 then "&#34;"
  else String.singleton c

/-- `html.EscapeString`. -/
def htmlEscape (s : String) : String :=
  String.join (s.data.map escChar)

/-- How one directory entry would be rendered if selected as the
README: the switch body of `Populate` (cheesedex.go lines 432-465),
keyed on the lowercased name.  `mdc` is the markdown converter. -/
def renderEntry (mdc : String → String) (f : LEntry) : Option Rendered :=
  match toLowerStr f.name with
  | "readme.txt" => some (.pre ("<pre>" ++ htmlEscape f.content ++ "</pre>"))
  | "readme.html" => some (.verbatim f.content)
  | "readme.md" => some (.markdown (mdc f.content))
  | _ => none

/-- The README selection loop of `Populate` (cheesedex.go lines
431-467): walk the (already sorted) listing in order; the first entry
whose lowercased name is `readme.txt`, `readme.html` or `readme.md` is
rendered by its variant and the loop breaks; read errors do not arise
in the model (contents are total). -/
def readmeLoop (mdc : String → String) : List LEntry → Option Rendered
  | [] => none
  | f :: rest =>
    match toLowerStr f.name with
    | "readme.txt" => some (.pre ("<pre>" ++ htmlEscape f.content ++ "</pre>"))
    | "readme.html" => some (.verbatim f.content)
    | "readme.md" => some (.markdown (mdc f.content))
    | _ => readmeLoop mdc rest

/-- The README `IndexContext.Populate` ends up with: sort the listing
as lines 410-419 do, then run the selection loop. -/
def populateReadme (mdc : String → String) (files : List LEntry) :
    Option Rendered :=
  readmeLoop mdc (sortFiles files)

/-! ## The archive encoders (`archiveZIP` / `archiveTarGZ`,
    cheesedex.go 252-330) -/

mutual

/-- The record stream a standard zip reader recovers from the archive
`archiveZIP` writes: `fs.WalkDir` over `os.DirFS(root)` in enumeration
order, one `(relative path, contents)` record per entry whose
`d.Type() == 0` (i.e. per regular file), nothing for the others;
`fs.WalkDir` does not follow symlinks, an enumeration failure aborts
the whole archive.  (The zip container itself — headers, CRC32s,
central directory — is stdlib bookkeeping outside the core; the model
works at the record level a standard reader decodes back.) -/
def archiveZIP : FNode → Path → Except WErr (List (Path × String))
  | .file c, pre => .ok [(pre, c)]
  | .symlink _ _, _ => .ok []
  | .dir false _, _ => .error .perm
  | .dir true cs, pre => archiveZIPList cs pre

/-- The sibling fold of `archiveZIP`'s traversal. -/
def archiveZIPList : List (String × FNode) → Path → Except WErr (List (Path × String))
  | [], _ => .ok []
  | (nm, ch) :: rest, pre =>
    match archiveZIP ch (pre ++ [nm]) with
    | .error e => .error e
    | .ok l1 =>
      match archiveZIPList rest pre with
      | .error e => .error e
      | .ok l2 => .ok (l1 ++ l2)

end

mutual

/-- The record stream of `archiveTarGZ` (cheesedex.go 290-330): same
traversal, keeping an entry iff `d.Type().IsRegular()`. -/
def archiveTarGZ : FNode → Path → Except WErr (List (Path × String))
  | .file c, pre => .ok [(pre, c)]
  | .symlink _ _, _ => .ok []
  | .dir false _, _ => .error .perm
  | .dir true cs, pre => archiveTarGZList cs pre

/-- The sibling fold of `archiveTarGZ`'s traversal. -/
def archiveTarGZList : List (String × FNode) → Path → Except WErr (List (Path × String))
  | [], _ => .ok []
  | (nm, ch) :: rest, pre =>
    match archiveTarGZ ch (pre ++ [nm]) with
    | .error e => .error e
    | .ok l1 =>
      match archiveTarGZList rest pre with
      | .error e => .error e
      | .ok l2 => .ok (l1 ++ l2)

end

mutual

/-- Spec-side definition, from the round-trip property's words: the
set of regular files of a subtree, each as its relative path (a
component list; its forward-slash string form has no leading slash)
with its contents; non-regular entries contribute nothing. -/
def specRegularFiles : FNode → List (Path × String)
  | .file c => [([], c)]
  | .symlink _ _ => []
  | .dir _ cs => specRegularFilesL cs

/-- Child-list case of `specRegularFiles`. -/
def specRegularFilesL : List (String × FNode) → List (Path × String)
  | [] => []
  | (nm, ch) :: rest =>
    (specRegularFiles ch).map (fun pc => (nm :: pc.1, pc.2))
      ++ specRegularFilesL rest

end

mutual

/-- Every directory in the subtree is readable (no enumeration
failures during the archive traversal). -/
def readableAll : FNode → Bool
  | .file _ => true
  | .symlink _ _ => true
  | .dir r cs => r && readableAllL cs

/-- Child-list case of `readableAll`. -/
def readableAllL : List (String × FNode) → Bool
  | [] => true
  | (_, ch) :: rest => readableAll ch && readableAllL rest

end

/-! ## Concrete trees exercising the claims -/

/-- A tree with a symlink cycle back to an ancestor: `/r` contains the
regular file `f` and the symlink `lnk` whose target is `.` — i.e. it
points at its own parent directory `/r`. -/
def fsC1 : FNode :=
  .dir true [("r", .dir true [("f", .file "x"), ("lnk", .symlink false ["."])])]

/-- `/a` contains a relative symlink `lnk -> sub` next to the real
directory `sub` (which holds a file), the textbook relative-link
layout. -/
def fsC2 : FNode :=
  .dir true [("a", .dir true
    [("lnk", .symlink false ["sub"]),
     ("sub", .dir true [("f", .file "y")])])]

/-- A served tree whose root `/srv` holds a directory `secret` that
cannot be enumerated (permission denied) and a regular file
`secretfile`; both names contain the query "secret". -/
def fsC6 : FNode :=
  .dir true [("srv", .dir true
    [("secret", .dir false [("z", .file "q")]),
     ("secretfile", .file "s")])]

/-- A root directory `d` with two regular files. -/
def fsC8 : FNode :=
  .dir true [("d", .dir true [("a", .file "x"), ("b", .file "y")])]

/-- A callback returning `fs.SkipDir` (after consulting the lazy stat)
on the regular file `d/a`, nil elsewhere. -/
def fnSkipA : CbFn := fun p _ _ =>
  if p = ["d", "a"] then (⟨some .skipDir, true⟩, []) else (⟨none, false⟩, [])

/-- A compiled regular expression matching any string that contains
"srv" (the literal regexp `srv`). -/
def rSrv : String → Bool := fun s => strContains s "srv"

/-- A served tree rooted at `/srv` holding one file. -/
def fsC3 : FNode := .dir true [("srv", .dir true [("a", .file "x")])]

/-- Spec-side definition, following the amended matching rule's words:
in regex mode the compiled expression is matched against the entry's
full path as opened on the server (the served directory joined with
the traversal-relative path); in literal mode the lowercased base name
of the relative path must contain the lowercased query. -/
def matchesEntry (exp : Option (String → Bool)) (lowerq : String)
    (bp rel : Path) : Bool :=
  match exp with
  | some r => r (pathStr (bp ++ rel))
  | none => strContains (toLowerStr (rel.getLastD "")) lowerq

/-- A callback returning `fs.SkipDir` everywhere, after consulting the
lazy stat accessor. -/
def fnSkipAll : CbFn := fun _ _ _ => (⟨some .skipDir, true⟩, [])

/-- A callback returning `fs.SkipDir` everywhere without ever invoking
the lazy stat accessor. -/
def fnSkipNoGet : CbFn := fun _ _ _ => (⟨some .skipDir, false⟩, [])

/-- A callback returning a plain (non-SkipDir) error everywhere. -/
def fnErrAll : CbFn := fun _ _ _ => (⟨some (.werr .noent), false⟩, [])

/-- A small readable tree with a regular file at the top, a
subdirectory holding a regular file and a symlink, and an empty
subdirectory. -/
def wTree : FNode :=
  .dir true [("a", .file "x"),
             ("d", .dir true [("b", .file "y"), ("s", .symlink false ["b"])]),
             ("e", .dir true [])]

/-- The values the search callback would send for one invocation at a
path, as a function of the path alone: empty unless the path lies
under the base with a nonempty relative part that matches; mirrors the
send-reaching slice of `searchFn` (an invocation additionally needs a
tolerated error argument and a successful accessor to get here). -/
def sendsAt (exp : Option (String → Bool)) (lowerq : String) (bp p : Path) :
    List Path :=
  match relPath bp p with
  | some (x :: xs) =>
    if (match exp with
        | some r => r (pathStr p)
        | none => strContains (toLowerStr ((x :: xs).getLastD "")) lowerq)
    then [x :: xs] else []
  | _ => []

/-- Reconstruction of one invocation's sends from its visit record: a
nil-error visit used the memoized accessor (`os.Stat` of the path); an
error-carrying visit received the `DirEntry`'s own `Info`, which in a
walk always succeeds — and the callback never inspects the payload, so
any successful value stands in for it. -/
def searchEmitAt (fs : FNode) (exp : Option (String → Bool)) (lowerq : String)
    (bp : Path) (v : Path × Option WErr) : List Path :=
  match v.2 with
  | none => (searchFn exp lowerq bp v.1 (statFS fs v.1) none).2
  | some e => (searchFn exp lowerq bp v.1 (.ok ⟨true⟩) (some e)).2

/-! ## Supporting lemmas -/

/-- A list is a prefix of itself followed by anything
(`List.isPrefixOf`, boolean form). -/
theorem isPrefixOf_append (bp rel : Path) : bp.isPrefixOf (bp ++ rel) = true := by
  induction bp with
  | nil => simp [List.isPrefixOf]
  | cons a as ih => simp [List.isPrefixOf, ih]

/-- `filepath.Rel` on a walk-produced path: the relative part is the
suffix after the base. -/
theorem relPath_append (bp rel : Path) : relPath bp (bp ++ rel) = some rel := by
  simp [relPath, isPrefixOf_append, List.drop_left]

/-- `filepath.Rel` succeeds only on paths under the base: the path is
the base followed by the relative part. -/
theorem relPath_eq_some (bp p r : Path) (h : relPath bp p = some r) :
    p = bp ++ r := by
  unfold relPath at h
  split at h
  · next hp =>
    obtain ⟨t, ht⟩ : ∃ t, bp ++ t = p := List.isPrefixOf_iff_prefix.mp hp
    subst ht
    simp [List.drop_left] at h
    subst h
    rfl
  · exact absurd h (by simp)

/-- With a successful accessor and a tolerated error argument (nil or
permission), the search callback's sends are `sendsAt` of the path. -/
theorem searchFn_okgi_sends (exp : Option (String → Bool)) (lowerq : String)
    (bp p : Path) (i : Info) (e : Option WErr)
    (he : e = none ∨ e = some WErr.perm) :
    (searchFn exp lowerq bp p (.ok i) e).2 = sendsAt exp lowerq bp p := by
  rcases he with rfl | rfl
  all_goals
    simp only [searchFn, sendsAt]
    rw [if_pos (by simp)]
    cases hrel : relPath bp p with
    | none => rfl
    | some rel =>
      cases rel with
      | nil => rfl
      | cons x xs =>
        split <;> try simp_all
        all_goals rw [apply_ite Prod.snd]

/-- With a failing accessor the search callback sends nothing (the
stat error is returned instead). -/
theorem searchFn_errgi_sends (exp : Option (String → Bool)) (lowerq : String)
    (bp p : Path) (w : WErr) (e : Option WErr) :
    (searchFn exp lowerq bp p (.error w) e).2 = [] := by
  simp only [searchFn]
  split
  · split
    · simp
    · simp
    · split
      · simp
      · simp
  · split <;> simp

/-- A hard (non-permission) error argument makes the search callback
return the error without sending. -/
theorem searchFn_hard_sends (exp : Option (String → Bool)) (lowerq : String)
    (bp p : Path) (gi : Except WErr Info) (e : WErr) (h : e ≠ WErr.perm) :
    (searchFn exp lowerq bp p gi (some e)).2 = [] := by
  simp only [searchFn]
  split
  · next hp => simp at hp; exact absurd hp h
  · simp

/-- `sendsAt` on a path under the base: the relative part is sent iff
it matches. -/
theorem sendsAt_append (exp : Option (String → Bool)) (lowerq : String)
    (bp rel : Path) (h : rel ≠ []) :
    sendsAt exp lowerq bp (bp ++ rel)
      = if matchesEntry exp lowerq bp rel then [rel] else [] := by
  obtain ⟨x, xs, rfl⟩ : ∃ x xs, rel = x :: xs := by
    cases rel with
    | nil => exact absurd rfl h
    | cons x xs => exact ⟨x, xs, rfl⟩
  simp only [sendsAt, relPath_append, matchesEntry]

/-- Whatever `sendsAt` sends identifies its path: a sent relative part
comes from the base joined with it. -/
theorem mem_sendsAt (exp : Option (String → Bool)) (lowerq : String)
    (bp p rel : Path) (h : rel ∈ sendsAt exp lowerq bp p) :
    p = bp ++ rel := by
  unfold sendsAt at h
  split at h
  · next x xs heq =>
    split at h
    · have hx : rel = x :: xs := by simpa using h
      subst hx
      exact relPath_eq_some bp p (x :: xs) heq
    · simp at h
  · simp at h

/-- Sends of a nil-error invocation: `sendsAt` when the stat succeeds,
nothing when it fails. -/
theorem searchEmitAt_none (fs : FNode) (exp : Option (String → Bool))
    (lowerq : String) (bp p : Path) :
    searchEmitAt fs exp lowerq bp (p, none)
      = match statFS fs p with
        | .ok _ => sendsAt exp lowerq bp p
        | .error _ => [] := by
  unfold searchEmitAt
  cases hs : statFS fs p with
  | ok i => simp [searchFn_okgi_sends exp lowerq bp p i none (Or.inl rfl)]
  | error w => simp [searchFn_errgi_sends]

/-- Sends of a permission-error invocation: `sendsAt` (the accessor of
the re-invocation always succeeds). -/
theorem searchEmitAt_perm (fs : FNode) (exp : Option (String → Bool))
    (lowerq : String) (bp p : Path) :
    searchEmitAt fs exp lowerq bp (p, some WErr.perm)
      = sendsAt exp lowerq bp p := by
  unfold searchEmitAt
  exact searchFn_okgi_sends exp lowerq bp p ⟨true⟩ (some WErr.perm) (Or.inr rfl)

/-- A hard-error invocation sends nothing. -/
theorem searchEmitAt_hard (fs : FNode) (exp : Option (String → Bool))
    (lowerq : String) (bp p : Path) (e : WErr) (h : e ≠ WErr.perm) :
    searchEmitAt fs exp lowerq bp (p, some e) = [] := by
  unfold searchEmitAt
  exact searchFn_hard_sends exp lowerq bp p (.ok ⟨true⟩) e h

/-- The walker's emitted values are exactly the per-invocation sends,
concatenated along the visit sequence: nothing is delivered outside a
visit-callback invocation and each invocation's sends are delivered
once. -/
theorem walkSearchEmits (fs : FNode) (exp : Option (String → Bool))
    (lowerq : String) (bp : Path) :
    (fuel : Nat) → (task : WTask) → (vis : List Path) →
    (walkDir fs (searchFn exp lowerq bp) fuel task vis).emits
      = (walkDir fs (searchFn exp lowerq bp) fuel task vis).visits.flatMap
          (searchEmitAt fs exp lowerq bp)
  | 0, _, vis => by simp [walkDir]
  | _ + 1, .sibs _ [], vis => by simp [walkDir]
  | fuel + 1, .sibs parent ((nm, dt) :: rest), vis => by
    have ih1 := walkSearchEmits fs exp lowerq bp fuel (.node (parent ++ [nm]) dt) vis
    simp only [walkDir]
    split
    · have ih2 := walkSearchEmits fs exp lowerq bp fuel (.sibs parent rest)
        (walkDir fs (searchFn exp lowerq bp) fuel
          (.node (parent ++ [nm]) dt) vis).visited
      simp [ih1, ih2]
    · simp [ih1]
    · simp [ih1]
  | fuel + 1, .node name d, vis => by
    simp only [walkDir]
    split
    · split
      · next e heq =>
        simp only [List.flatMap_cons, List.flatMap_nil, List.append_nil]
        have h2 : (searchFn exp lowerq bp name (.ok (dInfoOf d)) (some e)).2
            = (searchFn exp lowerq bp name (.ok ⟨true⟩) (some e)).2 := by
          by_cases hp : e = WErr.perm
          · subst hp
            rw [searchFn_okgi_sends exp lowerq bp name (dInfoOf d) (some .perm)
                (Or.inr rfl),
              searchFn_okgi_sends exp lowerq bp name ⟨true⟩ (some .perm)
                (Or.inr rfl)]
          · rw [searchFn_hard_sends exp lowerq bp name _ e hp,
              searchFn_hard_sends exp lowerq bp name _ e hp]
        simp [searchEmitAt, h2]
      · next entries heq =>
        have ih := walkSearchEmits fs exp lowerq bp fuel (.sibs name entries)
          ((willwalk fs vis name d).2 :: vis)
        simp [ih, searchEmitAt]
    · split
      · split
        · simp [searchEmitAt]
        · simp [searchEmitAt]
      · simp [searchEmitAt]

/-- The search callback sends nothing when invoked on the walk root
itself (the relative path is `"."`). -/
theorem searchFn_root (exp : Option (String → Bool)) (lowerq : String)
    (bp : Path) (gi : Except WErr Info) (e : Option WErr)
    (hgate : e = none ∨ e = some WErr.perm) :
    (searchFn exp lowerq bp bp gi e).2 = [] := by
  have hr : relPath bp bp = some [] := by
    have h0 := relPath_append bp []
    simpa using h0
  rcases hgate with rfl | rfl <;> simp [searchFn, hr]

/-- `walkSearchEmits` lifted through `WalkDir` for a walk rooted at
the search base (as `handleSearch` roots it), including the
root-stat-failure invocation. -/
theorem WalkDirSearchEmits (fs : FNode) (exp : Option (String → Bool))
    (lowerq : String) (bp : Path) (fuel : Nat) :
    (WalkDir fs (searchFn exp lowerq bp) fuel bp).emits
      = (WalkDir fs (searchFn exp lowerq bp) fuel bp).visits.flatMap
          (searchEmitAt fs exp lowerq bp) := by
  unfold WalkDir
  cases hs : statFS fs bp with
  | error e =>
    have h1 : (searchFn exp lowerq bp bp (.error e) (some e)).2 = [] := by
      by_cases hp : e = WErr.perm
      · subst hp
        exact searchFn_root exp lowerq bp (.error .perm) (some .perm) (Or.inr rfl)
      · exact searchFn_hard_sends exp lowerq bp bp (.error e) e hp
    have h2 : searchEmitAt fs exp lowerq bp (bp, some e) = [] := by
      by_cases hp : e = WErr.perm
      · subst hp
        rw [searchEmitAt_perm]
        have h3 := searchFn_root exp lowerq bp (.ok ⟨true⟩) (some .perm) (Or.inr rfl)
        calc sendsAt exp lowerq bp bp
            = (searchFn exp lowerq bp bp (.ok ⟨true⟩) (some WErr.perm)).2 :=
              (searchFn_okgi_sends exp lowerq bp bp ⟨true⟩ (some .perm)
                (Or.inr rfl)).symm
          _ = [] := h3
      · exact searchEmitAt_hard fs exp lowerq bp bp e hp
    simp [h1, h2]
  | ok i => exact walkSearchEmits fs exp lowerq bp fuel _ []

/-- A delivered value identifies the invocation's path. -/
theorem mem_searchEmitAt (fs : FNode) (exp : Option (String → Bool))
    (lowerq : String) (bp p : Path) (e : Option WErr) (rel : Path)
    (h : rel ∈ searchEmitAt fs exp lowerq bp (p, e)) :
    rel ∈ sendsAt exp lowerq bp p := by
  cases e with
  | none =>
    rw [searchEmitAt_none] at h
    cases hs : statFS fs p with
    | ok i => rw [hs] at h; exact h
    | error w => rw [hs] at h; simp at h
  | some e2 =>
    by_cases hp : e2 = WErr.perm
    · subst hp
      rw [searchEmitAt_perm] at h
      exact h
    · rw [searchEmitAt_hard fs exp lowerq bp p e2 hp] at h
      simp at h

/-- Delivery count of a matching relative entry across any invocation
sequence: one per nil-error visit when the entry's stat succeeds, plus
one per permission-error re-visit; invocations at other paths or with
hard errors contribute nothing. -/
theorem count_search_pos (fs : FNode) (exp : Option (String → Bool))
    (lowerq : String) (bp rel : Path) (hrel : rel ≠ [])
    (hm : matchesEntry exp lowerq bp rel = true) :
    (l : List (Path × Option WErr)) →
    (l.flatMap (searchEmitAt fs exp lowerq bp)).count rel
      = (if (statFS fs (bp ++ rel)).toOption.isSome
          then l.count (bp ++ rel, none) else 0)
        + l.count (bp ++ rel, some WErr.perm)
  | [] => by simp
  | (p, e) :: l => by
    have ih := count_search_pos fs exp lowerq bp rel hrel hm l
    simp only [List.flatMap_cons, List.count_append, List.count_cons, ih]
    by_cases hp : p = bp ++ rel
    · subst hp
      cases e with
      | none =>
        rw [searchEmitAt_none]
        cases hs : statFS fs (bp ++ rel) with
        | ok i =>
          simp [hs, sendsAt_append exp lowerq bp rel hrel, hm, Except.toOption]
          omega
        | error w =>
          simp [hs, Except.toOption]
      | some e2 =>
        by_cases hq : e2 = WErr.perm
        · subst hq
          rw [searchEmitAt_perm]
          simp [sendsAt_append exp lowerq bp rel hrel, hm]
          omega
        · rw [searchEmitAt_hard fs exp lowerq bp (bp ++ rel) e2 hq]
          simp [hq]
    · have hz : (searchEmitAt fs exp lowerq bp (p, e)).count rel = 0 := by
        rw [List.count_eq_zero]
        intro hmem
        exact hp (mem_sendsAt exp lowerq bp p rel
          (mem_searchEmitAt fs exp lowerq bp p e rel hmem))
      simp [hz, hp]

/-- A non-matching relative entry is never delivered. -/
theorem count_search_neg (fs : FNode) (exp : Option (String → Bool))
    (lowerq : String) (bp rel : Path) (hrel : rel ≠ [])
    (hm : matchesEntry exp lowerq bp rel = false)
    (l : List (Path × Option WErr)) :
    (l.flatMap (searchEmitAt fs exp lowerq bp)).count rel = 0 := by
  rw [List.count_eq_zero]
  intro hmem
  rw [List.mem_flatMap] at hmem
  obtain ⟨⟨p, e⟩, _, hin⟩ := hmem
  have h1 := mem_searchEmitAt fs exp lowerq bp p e rel hin
  have h2 := mem_sendsAt exp lowerq bp p rel h1
  subst h2
  rw [sendsAt_append exp lowerq bp rel hrel, hm] at h1
  simp at h1

/-- The README selection loop returns the rendering of the first entry
that renders at all. -/
theorem readmeLoop_eq_find (mdc : String → String) (l : List LEntry) :
    readmeLoop mdc l
      = (l.find? fun f => (renderEntry mdc f).isSome).bind (renderEntry mdc) := by
  induction l with
  | nil => simp [readmeLoop]
  | cons f rest ih =>
    simp only [readmeLoop, List.find?_cons]
    split
    · next heq => simp [renderEntry, heq]
    · next heq => simp [renderEntry, heq]
    · next heq => simp [renderEntry, heq]
    · next h1 h2 h3 => simp [renderEntry, h1, h2, h3, ih]

mutual

/-- On an everywhere-readable subtree, the zip traversal succeeds and
its records are exactly the spec-side regular files, prefixed. -/
theorem archiveZIP_eq : (n : FNode) → (pre : Path) → readableAll n = true →
    archiveZIP n pre
      = .ok ((specRegularFiles n).map fun pc => (pre ++ pc.1, pc.2))
  | .file c, pre, _ => by simp [archiveZIP, specRegularFiles]
  | .symlink a t, pre, _ => by simp [archiveZIP, specRegularFiles]
  | .dir r cs, pre, h => by
    have hp : r = true ∧ readableAllL cs = true := by
      simpa [readableAll] using h
    obtain ⟨hr, hcs⟩ := hp
    subst hr
    simpa [archiveZIP, specRegularFiles] using archiveZIPList_eq cs pre hcs

/-- Child-list case of `archiveZIP_eq`. -/
theorem archiveZIPList_eq : (cs : List (String × FNode)) → (pre : Path) →
    readableAllL cs = true →
    archiveZIPList cs pre
      = .ok ((specRegularFilesL cs).map fun pc => (pre ++ pc.1, pc.2))
  | [], pre, _ => by simp [archiveZIPList, specRegularFilesL]
  | (nm, ch) :: rest, pre, h => by
    have hp : readableAll ch = true ∧ readableAllL rest = true := by
      simpa [readableAllL] using h
    obtain ⟨h1, h2⟩ := hp
    have e1 := archiveZIP_eq ch (pre ++ [nm]) h1
    have e2 := archiveZIPList_eq rest pre h2
    simp [archiveZIPList, specRegularFilesL, e1, e2, List.map_map,
      Function.comp, List.append_assoc]

end

mutual

/-- On an everywhere-readable subtree, the tar traversal succeeds and
its records are exactly the spec-side regular files, prefixed. -/
theorem archiveTarGZ_eq : (n : FNode) → (pre : Path) → readableAll n = true →
    archiveTarGZ n pre
      = .ok ((specRegularFiles n).map fun pc => (pre ++ pc.1, pc.2))
  | .file c, pre, _ => by simp [archiveTarGZ, specRegularFiles]
  | .symlink a t, pre, _ => by simp [archiveTarGZ, specRegularFiles]
  | .dir r cs, pre, h => by
    have hp : r = true ∧ readableAllL cs = true := by
      simpa [readableAll] using h
    obtain ⟨hr, hcs⟩ := hp
    subst hr
    simpa [archiveTarGZ, specRegularFiles] using archiveTarGZList_eq cs pre hcs

/-- Child-list case of `archiveTarGZ_eq`. -/
theorem archiveTarGZList_eq : (cs : List (String × FNode)) → (pre : Path) →
    readableAllL cs = true →
    archiveTarGZList cs pre
      = .ok ((specRegularFilesL cs).map fun pc => (pre ++ pc.1, pc.2))
  | [], pre, _ => by simp [archiveTarGZList, specRegularFilesL]
  | (nm, ch) :: rest, pre, h => by
    have hp : readableAll ch = true ∧ readableAllL rest = true := by
      simpa [readableAllL] using h
    obtain ⟨h1, h2⟩ := hp
    have e1 := archiveTarGZ_eq ch (pre ++ [nm]) h1
    have e2 := archiveTarGZList_eq rest pre h2
    simp [archiveTarGZList, specRegularFilesL, e1, e2, List.map_map,
      Function.comp, List.append_assoc]

end

/-! ## Claims -/

/-- Claim C1 — refuted on the code.  `fsC1` contains a symlink cycle
back to an ancestor (`/r/lnk -> .`), yet the walk of `/r` invokes the
visit callback on the real file `/r/f` more than once: because
`willwalk` keys the visited set by `path.Join(name, link)` — the
link's own path joined with the target — rather than the link target's
canonical path, the cycle is never recognised and the walker descends
through `r/lnk`, `r/lnk/lnk`, …, revisiting the same real entries at
ever longer paths until the kernel's symlink-following budget makes
`os.Stat` fail.  The count below canonicalises every visited path and
finds the real entry `/r/f` visited at least twice (the run still ends
with a nil error, so the repeat visits are silent). -/
theorem walkRevisitsRealEntry :
    2 ≤ ((WalkDir fsC1 trivFn 200 ["r"]).visits.map
      (fun v => (resolveFS fsC1 linkBudget [] v.1).toOption)).count
        (some ["r", "f"]) ∧
    (WalkDir fsC1 trivFn 200 ["r"]).out = .term none := by
  decide

/-- Claim C2 — refuted on the code.  In `fsC2` the link `/a/lnk`
resolves (readlink yields the relative target `sub`), the target
resolved against the link's own directory is `/a/sub` — a directory
absent from the visited set — so the claim requires descent; but
`willwalk` joins the target onto the link's own path, producing
`/a/lnk/sub`, whose stat fails, and refuses to descend: the full walk
reports `/a/lnk` as a leaf and its subtree is reached only through the
real directory `/a/sub`. -/
theorem willwalkMisresolvesRelativeLink :
    willwalk fsC2 [["a"]] ["a", "lnk"] .symlink = (false, ["a", "lnk", "sub"]) ∧
    readlinkFS fsC2 ["a", "lnk"] = .ok (false, ["sub"]) ∧
    List.dropLast ["a", "lnk"] ++ ["sub"] = ["a", "sub"] ∧
    statFS fsC2 ["a", "sub"] = .ok ⟨true⟩ ∧
    ([["a"]] : List Path).contains ["a", "sub"] = false ∧
    (WalkDir fsC2 trivFn 100 ["a"]).visits.map Prod.fst
      = [["a"], ["a", "lnk"], ["a", "sub"], ["a", "sub", "f"]] := by
  decide

/-- Claim C3, counterexample.  With the served root `/srv`, the entry
`/srv/a` has traversal-relative path `a`; the compiled expression
`rSrv` does not match `a` (nor `/a`), so under the claim ("regex mode
matches the full traversal-relative path") the entry must not match —
yet the search callback sends it, because the code matches the
expression against `fpath`, the full server-joined path `/srv/a`; a
whole regex-mode search of `fsC3` therefore delivers the entry. -/
theorem searchMatchCounterexample :
    (searchFn (some rSrv) "" ["srv"] ["srv", "a"] (.ok ⟨false⟩) none).2 = [["a"]] ∧
    rSrv (pathStr ["a"]) = false ∧
    rSrv "a" = false ∧
    handleSearch fsC3 (fun _ => some rSrv) ["srv"] "srv" true 10
      = .page [["a"]] := by
  decide

/-- Claim C6, counterexample.  Searching `fsC6` for "secret" delivers
the directory `secret` — a matching directory whose enumeration fails
with a permission error — twice: once for its normal pre-order visit
and once more for the enumeration-failure re-invocation, which passes
the callback's permission case, matches again, and sends again.  The
claim's "exactly once" is false. -/
theorem matchDeliveredTwiceCounterexample :
    handleSearch fsC6 (fun _ => none) ["srv"] "secret" false 50
      = .page [["secret"], ["secret"], ["secretfile"]] ∧
    ([["secret"], ["secret"], ["secretfile"]] : List Path).count ["secret"] = 2 := by
  decide

/-- Claim C6, amended: for every search traversal (any filesystem,
query mode, base path and fuel) and every relative entry, the number
of Matches delivered for that entry equals the number of its
visit-callback invocations that reach the send — its nil-error visits
(counted only when its stat succeeds, since a failing lazy stat aborts
before the send) plus its permission-error re-visits; a non-matching
entry is never delivered.  Hence an entry visited once with a nil
error is delivered exactly once, while a matching directory whose
enumeration fails with a permission error is visited a second time by
the error report and delivered twice. -/
theorem matchDeliveryAmended (fs : FNode) (exp : Option (String → Bool))
    (lowerq : String) (bp : Path) (fuel : Nat) (rel : Path) (hrel : rel ≠ []) :
    (matchesEntry exp lowerq bp rel = true →
      (WalkDir fs (searchFn exp lowerq bp) fuel bp).emits.count rel
        = (if (statFS fs (bp ++ rel)).toOption.isSome
            then (WalkDir fs (searchFn exp lowerq bp) fuel bp).visits.count
              (bp ++ rel, none)
            else 0)
          + (WalkDir fs (searchFn exp lowerq bp) fuel bp).visits.count
              (bp ++ rel, some WErr.perm)) ∧
    (matchesEntry exp lowerq bp rel = false →
      (WalkDir fs (searchFn exp lowerq bp) fuel bp).emits.count rel = 0) := by
  constructor
  · intro hm
    rw [WalkDirSearchEmits]
    exact count_search_pos fs exp lowerq bp rel hrel hm _
  · intro hm
    rw [WalkDirSearchEmits]
    exact count_search_neg fs exp lowerq bp rel hrel hm _

/-- Witness for `matchDeliveryAmended` on `fsC6`: the matching
unreadable directory `secret` has one nil-error visit and one
permission-error visit and is delivered exactly twice, while the
matching file `secretfile` is delivered exactly once. -/
theorem matchDeliveryAmendedWitness :
    ((WalkDir fsC6 (searchFn none "secret" ["srv"]) 50 ["srv"]).emits.count
        ["secret"]
      = (if (statFS fsC6 (["srv"] ++ ["secret"])).toOption.isSome
          then (WalkDir fsC6 (searchFn none "secret" ["srv"]) 50 ["srv"]).visits.count
            (["srv"] ++ ["secret"], none)
          else 0)
        + (WalkDir fsC6 (searchFn none "secret" ["srv"]) 50 ["srv"]).visits.count
            (["srv"] ++ ["secret"], some WErr.perm)) ∧
    (WalkDir fsC6 (searchFn none "secret" ["srv"]) 50 ["srv"]).visits.count
      (["srv"] ++ ["secret"], none) = 1 ∧
    (WalkDir fsC6 (searchFn none "secret" ["srv"]) 50 ["srv"]).visits.count
      (["srv"] ++ ["secret"], some WErr.perm) = 1 ∧
    (WalkDir fsC6 (searchFn none "secret" ["srv"]) 50 ["srv"]).emits.count
      ["secret"] = 2 ∧
    (WalkDir fsC6 (searchFn none "secret" ["srv"]) 50 ["srv"]).emits.count
      ["secretfile"] = 1 := by
  refine ⟨(matchDeliveryAmended fsC6 none "secret" ["srv"] 50 ["secret"]
    (by decide)).1 (by decide), by decide, by decide, by decide, by decide⟩

/-- Claim C8, counterexample.  The callback returns `fs.SkipDir` on
the regular file `d/a`; were that a no-op, the sibling `d/b` would
still be visited.  Instead `walkDir` returns `fs.SkipDir` to the
sibling loop, which breaks: the walk visits only `d` and `d/a` and
ends nil — `d/b` is skipped. -/
theorem skipDirNoopCounterexample :
    (WalkDir fsC8 fnSkipA 10 ["d"]).visits.map Prod.fst = [["d"], ["d", "a"]] ∧
    (WalkDir fsC8 fnSkipA 10 ["d"]).out = .term none := by
  decide

/-- Claim C3, amended: for every entry visited with a nil error and a
successful lazy stat, the search callback sends the entry iff it
matches, where in literal mode the lowercased base name of the
traversal-relative path contains the lowercased query (as claimed),
but in regex mode the compiled expression is matched against the
entry's full path as opened on the server — the served directory
joined with the relative path — not against the traversal-relative
path alone. -/
theorem searchMatchAmended (exp : Option (String → Bool)) (lowerq : String)
    (bp rel : Path) (i : Info) (h : rel ≠ []) :
    searchFn exp lowerq bp (bp ++ rel) (.ok i) none
      = (⟨none, matchesEntry exp lowerq bp rel⟩,
         if matchesEntry exp lowerq bp rel then [rel] else []) := by
  obtain ⟨x, xs, rfl⟩ : ∃ x xs, rel = x :: xs := by
    cases rel with
    | nil => exact absurd rfl h
    | cons x xs => exact ⟨x, xs, rfl⟩
  simp only [searchFn, relPath_append]
  split <;> simp_all [matchesEntry]
  split <;> simp_all

/-- Witness for `searchMatchAmended` at a concrete entry: the relative
path `ab` with literal query `a` matches and is sent. -/
theorem searchMatchAmendedWitness :
    searchFn none "a" ["s"] (["s"] ++ ["ab"]) (.ok ⟨false⟩) none
      = (⟨none, true⟩, [["ab"]]) := by
  rw [searchMatchAmended none "a" ["s"] ["ab"] ⟨false⟩ (by decide)]
  decide

/-- Claim C4, counterexample.  A directory holding `readme.txt` and
`readme.md` (both regular files): under the claimed fixed priority
`readme.txt > readme.html > readme.md` the text variant would be
selected and rendered escaped in a preformatted block; the code
instead selects `readme.md` — the first match in the sorted listing
order — and renders the markdown conversion. -/
theorem readmePriorityCounterexample :
    populateReadme id [⟨"readme.txt", false, "T"⟩, ⟨"readme.md", false, "M"⟩]
      = some (.markdown "M") ∧
    some (Rendered.markdown "M")
      ≠ some (.pre ("<pre>" ++ htmlEscape "T" ++ "</pre>")) := by
  decide

/-- Claim C4, amended: the builder selects at most one README — the
first entry, in the listing's sorted order (directories first, then
name order), whose lowercased name is `readme.txt`, `readme.html` or
`readme.md` — not a fixed `txt > html > md` priority; only that entry
is rendered, by its variant (`.txt` HTML-escaped in a preformatted
block, `.html` verbatim, `.md` through the markdown converter). -/
theorem readmeSelectionAmended (mdc : String → String) (files : List LEntry) :
    populateReadme mdc files
      = ((sortFiles files).find? fun f => (renderEntry mdc f).isSome).bind
          (renderEntry mdc) := by
  simp [populateReadme, readmeLoop_eq_find]

/-- Claim C5: on an everywhere-readable subtree both encoders succeed
and their record streams — what a standard reader decodes back — carry
exactly the subtree's regular files: the same set of relative
(component-list, hence forward-slash, no-leading-slash) paths with
byte-identical contents; directories and symlinks contribute no
record. -/
theorem archiveRoundTrip (n : FNode) (h : readableAll n = true) :
    archiveZIP n [] = .ok (specRegularFiles n) ∧
    archiveTarGZ n [] = .ok (specRegularFiles n) ∧
    ∀ p c, ((p, c) ∈ (archiveZIP n []).toOption.getD [] ↔
      (p, c) ∈ specRegularFiles n) := by
  have e1 := archiveZIP_eq n [] h
  have e2 := archiveTarGZ_eq n [] h
  simp only [List.nil_append] at e1 e2
  have e1s : archiveZIP n [] = .ok (specRegularFiles n) := by simpa using e1
  have e2s : archiveTarGZ n [] = .ok (specRegularFiles n) := by simpa using e2
  exact ⟨e1s, e2s, fun p c => by simp [e1s, Except.toOption]⟩

/-- Witness for `archiveRoundTrip` on the concrete tree `wTree`
(regular files `a` and `d/b`; the symlink `d/s` and both directories
contribute nothing). -/
theorem archiveRoundTripWitness :
    (archiveZIP wTree [] = .ok (specRegularFiles wTree) ∧
     archiveTarGZ wTree [] = .ok (specRegularFiles wTree) ∧
     ∀ p c, ((p, c) ∈ (archiveZIP wTree []).toOption.getD [] ↔
       (p, c) ∈ specRegularFiles wTree)) ∧
    specRegularFiles wTree = [(["a"], "x"), (["d", "b"], "y")] := by
  refine ⟨archiveRoundTrip wTree (by decide), ?_⟩
  simp [specRegularFiles, specRegularFilesL, wTree]

/-- Claim C7: in regex mode a query that fails to compile is answered
with a client-input error (HTTP 400) before the results channel, the
walking goroutine, the banner read or the template exist; the response
is independent of the filesystem — no filesystem call is performed. -/
theorem badRegexEarlyReturn (fs fs2 : FNode)
    (compile : String → Option (String → Bool)) (bp : Path) (q : String)
    (fuel : Nat) (h : compile q = none) :
    handleSearch fs compile bp q true fuel = .badRequest ∧
    handleSearch fs compile bp q true fuel
      = handleSearch fs2 compile bp q true fuel := by
  simp [handleSearch, h]

/-- Witness for `badRegexEarlyReturn` with a concrete always-failing
compiler (e.g. the unclosed-parenthesis query). -/
theorem badRegexEarlyReturnWitness :
    handleSearch (.dir true []) (fun _ => none) ["r"] "(" true 7
      = .badRequest := by
  exact (badRegexEarlyReturn (.dir true []) (.dir true [])
    (fun _ => none) ["r"] "(" 7 rfl).1

/-- Claim C8, amended: `visit` runs before the recursion decision (its
invocation heads the frame's visit list); a returned `fs.SkipDir`
prunes — the frame returns nil without descending — when the memoized
stat reports a directory, but on a non-directory the frame returns
`fs.SkipDir` and the sibling loop of the containing directory breaks,
skipping the remaining entries (not a no-op); any other non-nil return
aborts the walk. -/
theorem skipDirPrunesOrSkipsSiblings :
    (∀ (fs : FNode) (fn : CbFn) (fuel : Nat) (name : Path) (d : Dt)
       (vis : List Path) (i : Info),
       (fn name (statFS fs name) none).1 = ⟨some .skipDir, true⟩ →
       statFS fs name = .ok i →
       walkDir fs fn (fuel + 1) (.node name d) vis
         = ⟨[(name, none)], (fn name (statFS fs name) none).2, vis,
            .term (if i.isDir then none else some .skipDir)⟩) ∧
    (∀ (fs : FNode) (fn : CbFn) (fuel : Nat) (parent : Path) (nm : String)
       (dt : Dt) (rest : List (String × Dt)) (vis : List Path),
       (walkDir fs fn fuel (.node (parent ++ [nm]) dt) vis).out
         = .term (some .skipDir) →
       walkDir fs fn (fuel + 1) (.sibs parent ((nm, dt) :: rest)) vis
         = ⟨(walkDir fs fn fuel (.node (parent ++ [nm]) dt) vis).visits,
            (walkDir fs fn fuel (.node (parent ++ [nm]) dt) vis).emits,
            (walkDir fs fn fuel (.node (parent ++ [nm]) dt) vis).visited,
            .term none⟩) ∧
    (∀ (fs : FNode) (fn : CbFn) (fuel : Nat) (name : Path) (d : Dt)
       (vis : List Path) (e : WErr),
       (fn name (statFS fs name) none).1.ret = some (.werr e) →
       (walkDir fs fn (fuel + 1) (.node name d) vis).out
         = .term (some (.werr e)) ∧
       (walkDir fs fn (fuel + 1) (.node name d) vis).visits
         = [(name, none)]) := by
  refine ⟨?_, ?_, ?_⟩
  · intro fs fn fuel name d vis i h hstat
    rw [hstat] at h ⊢
    simp [walkDir, h, hstat, Except.toOption]
  · intro fs fn fuel parent nm dt rest vis h
    simp [walkDir, h]
  · intro fs fn fuel name d vis e h
    simp [walkDir, h]

/-- Witness for `skipDirPrunesOrSkipsSiblings`: each conjunct applied
at a concrete instance — SkipDir on a stat-checked non-directory
returns SkipDir; the sibling loop of `d` breaks after the SkipDir from
`d/a`; a plain error return aborts. -/
theorem skipDirPrunesOrSkipsSiblingsWitness :
    walkDir (.file "x") fnSkipAll 1 (.node [] .file) []
      = ⟨[([], none)], (fnSkipAll [] (statFS (.file "x") []) none).2, [],
         .term (if (⟨false⟩ : Info).isDir then none else some .skipDir)⟩ ∧
    walkDir fsC8 fnSkipA 6 (.sibs ["d"] [("a", .file), ("b", .file)]) [["d"]]
      = ⟨(walkDir fsC8 fnSkipA 5 (.node (["d"] ++ ["a"]) .file) [["d"]]).visits,
         (walkDir fsC8 fnSkipA 5 (.node (["d"] ++ ["a"]) .file) [["d"]]).emits,
         (walkDir fsC8 fnSkipA 5 (.node (["d"] ++ ["a"]) .file) [["d"]]).visited,
         .term none⟩ ∧
    (walkDir (.file "x") fnErrAll 1 (.node [] .file) []).out
      = .term (some (.werr .noent)) := by
  refine ⟨skipDirPrunesOrSkipsSiblings.1 (.file "x") fnSkipAll 0 [] .file []
      ⟨false⟩ (by decide) (by decide),
    skipDirPrunesOrSkipsSiblings.2.1 fsC8 fnSkipA 5 ["d"] "a" .file
      [("b", .file)] [["d"]] (by decide),
    (skipDirPrunesOrSkipsSiblings.2.2 (.file "x") fnErrAll 0 [] .file []
      .noent (by decide)).1⟩

/-- Claim C9: a directory with both `README.md` and `README.txt`
renders exactly the markdown rendering of `README.md` — `README.md`
sorts before `README.txt`, the loop selects it first and breaks, and
nothing of `README.txt` is rendered (for any converter and any
contents). -/
theorem readmeMdOverTxt (mdc : String → String) (c1 c2 : String) :
    populateReadme mdc [⟨"README.md", false, c1⟩, ⟨"README.txt", false, c2⟩]
      = some (.markdown (mdc c1)) := rfl

/-- Claim C10: if the visit callback returns `fs.SkipDir` without
having invoked the entry's lazy stat accessor, `walkDir` evaluates
`stat.IsDir()` on a nil `fs.FileInfo` and panics instead of pruning or
continuing; when the accessor has been invoked and succeeded, the
SkipDir-on-directory check is safe and the frame returns normally. -/
theorem skipDirNilStatPanics (fs : FNode) (fn : CbFn) (fuel : Nat)
    (name : Path) (d : Dt) (vis : List Path) :
    ((fn name (statFS fs name) none).1 = ⟨some .skipDir, false⟩ →
      (walkDir fs fn (fuel + 1) (.node name d) vis).out = .panicked) ∧
    (∀ i : Info, (fn name (statFS fs name) none).1 = ⟨some .skipDir, true⟩ →
      statFS fs name = .ok i →
      (walkDir fs fn (fuel + 1) (.node name d) vis).out
        = .term (if i.isDir then none else some .skipDir)) := by
  constructor
  · intro h
    simp [walkDir, h]
  · intro i h hstat
    rw [hstat] at h
    simp [walkDir, h, hstat, Except.toOption]

/-- Witness for `skipDirNilStatPanics`: a callback returning
`fs.SkipDir` without touching the accessor panics the frame; the same
return after a successful stat of a non-directory ends the frame with
`fs.SkipDir` (no panic). -/
theorem skipDirNilStatPanicsWitness :
    (walkDir (.file "x") fnSkipNoGet 1 (.node [] .file) []).out = .panicked ∧
    (walkDir (.file "x") fnSkipAll 1 (.node [] .file) []).out
      = .term (if (⟨false⟩ : Info).isDir then none else some .skipDir) := by
  refine ⟨(skipDirNilStatPanics (.file "x") fnSkipNoGet 0 [] .file []).1
      (by decide),
    (skipDirNilStatPanics (.file "x") fnSkipAll 0 [] .file []).2 ⟨false⟩
      (by decide) (by decide)⟩

end Cheesedex
